import Mathlib

/-!
# generic-dcn: command entry points and the SaaS API server

A shallow embedding of

* `cmd/gdcn/solver.go`, `cmd/gdcn/mediator.go`, `cmd/gdcn/resource-provider.go`
  (the `run*` functions: set-up, `Start`, and the `for { select { ... } }` wait loop),
* `pkg/saas/server/server.go` (`NewServer` and the route table of `ListenAndServe`),

together with the solver matching pass and the deal state machine as the
specification describes them.
-/

namespace GenericDCN

/-! ## Go values -/

/-- A Go `error` value; `none` is `nil`. -/
abbrev GoError := Option String

/-! ## cmd/gdcn: the run functions -/

/-- Calls a run function makes on its collaborators, in program order. -/
inductive Effect where
  | NewCommandContext
  | NewContractSDK
  | NewSolverStoreMemory
  | NewBacalhauExecutor
  | NewSolver
  | NewMediator
  | NewResourceProvider
  | LogStarting
  | Start
  | Cleanup
  deriving DecidableEq, Repr

/-- What one evaluation of the `select` statement finds.
`errPending` is the value ready to be received from the channel returned by
`Start` (if any), `ctxDone` says whether `commandCtx.Ctx.Done()` is closed, and
`pickErr` is the runtime's choice when both cases are ready. -/
structure SelectObs where
  errPending : Option GoError
  ctxDone : Bool
  pickErr : Bool
  deriving DecidableEq, Repr

/-- Value returned by a run function together with the calls it made. -/
structure RunResult where
  ret : GoError
  trace : List Effect
  deriving DecidableEq, Repr

/-- One evaluation of
`select { case err := <-errs: commandCtx.Cleanup(); return err; case <-ctx.Done(): return nil }`.
`none` means that neither case is ready and the goroutine stays blocked. -/
def selectStep (o : SelectObs) : Option RunResult :=
  match o.errPending, o.ctxDone with
  | some e, false => some { ret := e, trace := [Effect.Cleanup] }
  | none, true => some { ret := none, trace := [] }
  | some e, true =>
      if o.pickErr then some { ret := e, trace := [Effect.Cleanup] }
      else some { ret := none, trace := [] }
  | none, false => none

/-- The `for { select { ... } }` loop shared by the three run functions, run
against the successive states of the two channels. `none` means the loop is
still blocked when the observations end. -/
def waitLoop : List SelectObs → Option RunResult
  | [] => none
  | o :: rest =>
      match selectStep o with
      | some r => some r
      | none => waitLoop rest

/-- Errors returned by the constructors `runSolver` calls (`none` is success). -/
structure SolverEnv where
  newContractSDK : GoError
  newSolverStoreMemory : GoError
  newSolver : GoError
  deriving DecidableEq, Repr

/-- Errors returned by the constructors `runMediator` calls. -/
structure MediatorEnv where
  newContractSDK : GoError
  newBacalhauExecutor : GoError
  newMediator : GoError
  deriving DecidableEq, Repr

/-- Errors returned by the constructors `runResourceProvider` calls. -/
structure ResourceProviderEnv where
  newContractSDK : GoError
  newBacalhauExecutor : GoError
  newResourceProvider : GoError
  deriving DecidableEq, Repr

/-- Completes a run: prepends the calls made so far, appends the deferred
`commandCtx.Cleanup()`. -/
def finish (before : List Effect) (r : RunResult) : RunResult :=
  { ret := r.ret, trace := before ++ r.trace ++ [Effect.Cleanup] }

/-- Embedding of `runSolver`. -/
def runSolver (env : SolverEnv) (obs : List SelectObs) : Option RunResult :=
  let t0 := [Effect.NewCommandContext]
  let t1 := t0 ++ [Effect.NewContractSDK]
  match env.newContractSDK with
  | some err => some (finish t1 { ret := some err, trace := [] })
  | none =>
    let t2 := t1 ++ [Effect.NewSolverStoreMemory]
    match env.newSolverStoreMemory with
    | some err => some (finish t2 { ret := some err, trace := [] })
    | none =>
      let t3 := t2 ++ [Effect.NewSolver]
      match env.newSolver with
      | some err => some (finish t3 { ret := some err, trace := [] })
      | none =>
        let t4 := t3 ++ [Effect.Start]
        (waitLoop obs).map (finish t4)

/-- Embedding of `runMediator`. -/
def runMediator (env : MediatorEnv) (obs : List SelectObs) : Option RunResult :=
  let t0 := [Effect.NewCommandContext]
  let t1 := t0 ++ [Effect.NewContractSDK]
  match env.newContractSDK with
  | some err => some (finish t1 { ret := some err, trace := [] })
  | none =>
    let t2 := t1 ++ [Effect.NewBacalhauExecutor]
    match env.newBacalhauExecutor with
    | some err => some (finish t2 { ret := some err, trace := [] })
    | none =>
      let t3 := t2 ++ [Effect.NewMediator]
      match env.newMediator with
      | some err => some (finish t3 { ret := some err, trace := [] })
      | none =>
        let t4 := t3 ++ [Effect.LogStarting, Effect.Start]
        (waitLoop obs).map (finish t4)

/-- Embedding of `runResourceProvider`. -/
def runResourceProvider (env : ResourceProviderEnv) (obs : List SelectObs) :
    Option RunResult :=
  let t0 := [Effect.NewCommandContext]
  let t1 := t0 ++ [Effect.NewContractSDK]
  match env.newContractSDK with
  | some err => some (finish t1 { ret := some err, trace := [] })
  | none =>
    let t2 := t1 ++ [Effect.NewBacalhauExecutor]
    match env.newBacalhauExecutor with
    | some err => some (finish t2 { ret := some err, trace := [] })
    | none =>
      let t3 := t2 ++ [Effect.NewResourceProvider]
      match env.newResourceProvider with
      | some err => some (finish t3 { ret := some err, trace := [] })
      | none =>
        let t4 := t3 ++ [Effect.Start]
        (waitLoop obs).map (finish t4)

/-- The service was started: every constructor of `runSolver` succeeded. -/
def SolverEnv.started (env : SolverEnv) : Prop :=
  env.newContractSDK = none ∧ env.newSolverStoreMemory = none ∧ env.newSolver = none

/-- The service was started: every constructor of `runMediator` succeeded. -/
def MediatorEnv.started (env : MediatorEnv) : Prop :=
  env.newContractSDK = none ∧ env.newBacalhauExecutor = none ∧ env.newMediator = none

/-- The service was started: every constructor of `runResourceProvider` succeeded. -/
def ResourceProviderEnv.started (env : ResourceProviderEnv) : Prop :=
  env.newContractSDK = none ∧ env.newBacalhauExecutor = none ∧
    env.newResourceProvider = none

/-- Neither case of the `select` is ready. -/
def SelectObs.blocked (o : SelectObs) : Prop :=
  o.errPending = none ∧ o.ctxDone = false

/-! ## pkg/saas/server: NewServer -/

/-- Embedding of `ServerOptions`. -/
structure ServerOptions where
  URL : String
  Host : String
  Port : Int
  KeyCloakURL : String
  KeyCloakToken : String
  LocalFilestorePath : String
  deriving DecidableEq, Repr

/-- Embedding of `LilysaasAPIServer`; the store and controller types are abstract. -/
structure LilysaasAPIServer (S C : Type) where
  Options : ServerOptions
  Store : S
  Controller : C

/-- Embedding of `NewServer`: the pair `(*LilysaasAPIServer, error)`. -/
def NewServer {S C : Type} (options : ServerOptions) (store : S) (controller : C) :
    Option (LilysaasAPIServer S C) × GoError :=
  if options.URL = "" then (none, some "server url is required")
  else if options.Host = "" then (none, some "server host is required")
  else if options.Port = 0 then (none, some "server port is required")
  else if options.KeyCloakURL = "" then (none, some "keycloak url is required")
  else if options.KeyCloakToken = "" then (none, some "keycloak token is required")
  else (some { Options := options, Store := store, Controller := controller }, none)

/-! ## pkg/saas/server: the route table of ListenAndServe

The routers are those of `gorilla/mux`. `dispatch` embeds `Router.Match`: the
routes of a router are tried in registration order, a route on a subrouter
matches when one of the subrouter's routes does, and the middlewares of every
router on the way wrap the matched handler. `ServeHTTP` embeds
`Router.ServeHTTP`, which redirects a path that is not in canonical form before
any matching. The file viewer is `http.StripPrefix` around `http.FileServer`,
embedded with the `URL.RawPath` test of the former and the path cleaning of the
latter. -/

/-- Go `strings.HasPrefix`. -/
def hasPrefix (s pre : String) : Bool :=
  pre.data.isPrefixOf s.data

/-- Go `strings.TrimPrefix`. -/
def trimPrefix (s pre : String) : String :=
  if hasPrefix s pre then ⟨s.data.drop pre.data.length⟩ else s

/-- The three routers `ListenAndServe` creates: `router`, `subrouter`
(`router.PathPrefix("/api/v1").Subrouter()`) and `authRouter`
(a subrouter of `subrouter` behind a matcher that always returns true). -/
inductive RouterId where
  | router
  | subrouter
  | authRouter
  deriving DecidableEq, Repr

/-- Middlewares installed with `Use`. -/
inductive Middleware where
  | corsMiddleware
  | verifyToken
  deriving DecidableEq, Repr

/-- Methods of `apiServer` passed through `wrapper`. -/
inductive ApiMethod where
  | getModules
  | status
  | getJobs
  | getTransactions
  | createJobAsync
  | createJobSync
  | filestoreConfig
  | filestoreList
  | filestoreGet
  | filestoreCreateFolder
  | filestoreUpload
  | filestoreRename
  | filestoreDelete
  | createAPIKey
  | getAPIKeys
  | deleteAPIKey
  | checkAPIKey
  deriving DecidableEq, Repr

/-- Handlers that `ListenAndServe` registers. -/
inductive Handler where
  /-- The handler `wrapper(apiServer.m)` -/
  | wrapped (m : ApiMethod)
  /-- The handler `http.StripPrefix(strip, ...)` around `http.FileServer(http.Dir(dir))` -/
  | stripPrefixFileServer (strip : String) (dir : String)
  /-- The handler installed by `StartWebSocketServer` -/
  | webSocket
  deriving DecidableEq, Repr

/-- Path matcher of a route: `HandleFunc(tpl, ...)` matches the whole path,
`PathPrefix(tpl)` a leading part of it. -/
inductive PathMatcher where
  | whole (tpl : String)
  | leading (tpl : String)
  deriving DecidableEq, Repr

/-- A registered route. An empty `methods` list means no `Methods(...)` matcher. -/
structure Route where
  path : PathMatcher
  methods : List String
  handler : Handler
  deriving DecidableEq, Repr

/-- An entry of `subrouter`: either a route of its own or the route that leads
into `authRouter`. -/
inductive SubrouterEntry where
  | authSubrouter
  | route (r : Route)
  deriving DecidableEq, Repr

/-- Path template every route of a router is built under. `authRouter` inherits
the template of `subrouter`. -/
def RouterId.pathTemplate : RouterId → String
  | .router => ""
  | .subrouter => "/api/v1"
  | .authRouter => "/api/v1"

/-- Middlewares installed on each router (`router.Use(apiServer.corsMiddleware)`,
`authRouter.Use(keyCloakMiddleware.verifyToken)`). -/
def RouterId.middlewares : RouterId → List Middleware
  | .router => [Middleware.corsMiddleware]
  | .subrouter => []
  | .authRouter => [Middleware.verifyToken]

/-- Routes registered with `authRouter.HandleFunc(...)`, in source order. -/
def authRoutes : List Route :=
  [ { path := .whole "/status", methods := ["GET"], handler := .wrapped .status },
    { path := .whole "/jobs", methods := ["GET"], handler := .wrapped .getJobs },
    { path := .whole "/transactions", methods := ["GET"], handler := .wrapped .getTransactions },
    { path := .whole "/jobs/async", methods := ["POST"], handler := .wrapped .createJobAsync },
    { path := .whole "/jobs/sync", methods := ["POST"], handler := .wrapped .createJobSync },
    { path := .whole "/filestore/config", methods := ["GET"], handler := .wrapped .filestoreConfig },
    { path := .whole "/filestore/list", methods := ["GET"], handler := .wrapped .filestoreList },
    { path := .whole "/filestore/get", methods := ["GET"], handler := .wrapped .filestoreGet },
    { path := .whole "/filestore/folder", methods := ["POST"],
      handler := .wrapped .filestoreCreateFolder },
    { path := .whole "/filestore/upload", methods := ["POST"],
      handler := .wrapped .filestoreUpload },
    { path := .whole "/filestore/rename", methods := ["PUT"],
      handler := .wrapped .filestoreRename },
    { path := .whole "/filestore/delete", methods := ["DELETE"],
      handler := .wrapped .filestoreDelete },
    { path := .whole "/api_keys", methods := ["POST"], handler := .wrapped .createAPIKey },
    { path := .whole "/api_keys", methods := ["GET"], handler := .wrapped .getAPIKeys },
    { path := .whole "/api_keys", methods := ["DELETE"], handler := .wrapped .deleteAPIKey },
    { path := .whole "/api_keys/check", methods := ["GET"], handler := .wrapped .checkAPIKey } ]

/-- The route `subrouter.HandleFunc("/modules", wrapper(apiServer.getModules)).Methods("GET")`. -/
def modulesRoute : Route :=
  { path := .whole "/modules", methods := ["GET"], handler := .wrapped .getModules }

/-- The file viewer route:
`subrouter.PathPrefix("/filestore/viewer/").Handler(http.StripPrefix("/api/v1/filestore/viewer/", ...))`. -/
def fileViewerRoute (options : ServerOptions) : Route :=
  { path := .leading "/filestore/viewer/", methods := [],
    handler := .stripPrefixFileServer "/api/v1/filestore/viewer/" options.LocalFilestorePath }

/-- The call `StartWebSocketServer(ctx, subrouter, "/ws", ...)`. The body of the
function is in a file of the package that is not among the sources; it is taken
to register one handler, for every method, at the path it is given on the
router it is given. -/
def StartWebSocketServer (path : String) : Route :=
  { path := .whole path, methods := [], handler := .webSocket }

/-- Entries of `subrouter` in registration order: the route into `authRouter`
comes first, then `/modules`, the file viewer when `LocalFilestorePath` is not
empty, and the websocket endpoint. -/
def subrouterEntries (options : ServerOptions) : List SubrouterEntry :=
  [ SubrouterEntry.authSubrouter,
    SubrouterEntry.route modulesRoute ]
  ++ (if options.LocalFilestorePath ≠ "" then [SubrouterEntry.route (fileViewerRoute options)]
      else [])
  ++ [ SubrouterEntry.route (StartWebSocketServer "/ws") ]

/-- Every handler route of the table with the router it was registered on. -/
def routeTable (options : ServerOptions) : List (RouterId × Route) :=
  (subrouterEntries options).flatMap fun e =>
    match e with
    | .authSubrouter => authRoutes.map fun r => (RouterId.authRouter, r)
    | .route r => [(RouterId.subrouter, r)]

/-- Embedding of `ListenAndServe` up to the call of `srv.ListenAndServe()`: the
handler routes it registers, each with the router it is registered on. Of
`apiServer` the registrations read `Options.LocalFilestorePath` only. -/
def LilysaasAPIServer.ListenAndServe {S C : Type} (apiServer : LilysaasAPIServer S C) :
    List (RouterId × Route) :=
  routeTable apiServer.Options

/-- An HTTP request as far as routing looks at it. -/
structure Request where
  method : String
  path : String
  deriving DecidableEq, Repr

/-- Outcome of matching one route. -/
inductive RouteOutcome where
  | matched
  | methodMismatch
  | noMatch
  deriving DecidableEq, Repr

/-- Does the path of the request match the route registered on router `rid`. -/
def Route.pathMatches (rid : RouterId) (r : Route) (req : Request) : Bool :=
  match r.path with
  | .whole tpl => decide (req.path = rid.pathTemplate ++ tpl)
  | .leading tpl => hasPrefix req.path (rid.pathTemplate ++ tpl)

/-- Embedding of `Route.Match` for a handler route. -/
def Route.matchRequest (rid : RouterId) (r : Route) (req : Request) : RouteOutcome :=
  if r.pathMatches rid req then
    if r.methods = [] ∨ req.method ∈ r.methods then .matched else .methodMismatch
  else .noMatch

/-- Result of routing a request. `serve chain h` runs the middlewares of `chain`
from left to right, each around the rest, with `h` innermost. -/
inductive Dispatch where
  | serve (chain : List Middleware) (h : Handler)
  | methodNotAllowed
  | notFound
  deriving DecidableEq, Repr

/-- Embedding of `Router.Match` over the handler routes of one router. The flag
records a method mismatch seen on an earlier route. -/
def matchRoutes (rid : RouterId) (req : Request) : List Route → Bool → Dispatch
  | [], mismatch => if mismatch then .methodNotAllowed else .notFound
  | r :: rs, mismatch =>
      match r.matchRequest rid req with
      | .matched => .serve rid.middlewares r.handler
      | .methodMismatch => matchRoutes rid req rs true
      | .noMatch => matchRoutes rid req rs mismatch

/-- Embedding of `Router.Match` for `subrouter`. -/
def matchSubrouter (req : Request) : List SubrouterEntry → Bool → Dispatch
  | [], mismatch => if mismatch then .methodNotAllowed else .notFound
  | .authSubrouter :: es, mismatch =>
      match matchRoutes .authRouter req authRoutes false with
      | .serve chain h => .serve (RouterId.subrouter.middlewares ++ chain) h
      | .methodNotAllowed => matchSubrouter req es true
      | .notFound => matchSubrouter req es mismatch
  | .route r :: es, mismatch =>
      match r.matchRequest .subrouter req with
      | .matched => .serve RouterId.subrouter.middlewares r.handler
      | .methodMismatch => matchSubrouter req es true
      | .noMatch => matchSubrouter req es mismatch

/-- Embedding of `Router.Match` for the root router built by `ListenAndServe`:
its only route is `PathPrefix("/api/v1")` leading into `subrouter`. -/
def dispatch (options : ServerOptions) (req : Request) : Dispatch :=
  if hasPrefix req.path RouterId.subrouter.pathTemplate then
    match matchSubrouter req (subrouterEntries options) false with
    | .serve chain h => .serve (RouterId.router.middlewares ++ chain) h
    | other => other
  else .notFound

/-- Go `strings.HasSuffix`. -/
def hasSuffix (s suf : String) : Bool :=
  suf.data.isSuffixOf s.data

/-- The elements of a slash-separated path: the pieces between its slashes. -/
def splitSlash : List Char → List (List Char)
  | [] => [[]]
  | c :: cs =>
      if c = '/' then [] :: splitSlash cs
      else
        match splitSlash cs with
        | [] => [[c]]
        | seg :: segs => (c :: seg) :: segs

/-- The elements put together again, a slash between every two. -/
def joinSlash : List (List Char) → List Char
  | [] => []
  | [seg] => seg
  | seg :: next :: rest => seg ++ '/' :: joinSlash (next :: rest)

/-- The element rules of Go `path.Clean`, applied from left to right; `acc` holds
the elements kept so far, last first. Empty elements and `.` are dropped; `..`
removes the element kept before it; a `..` with nothing to remove is dropped in
a rooted path and kept in a relative one. -/
def cleanElements (rooted : Bool) : List (List Char) → List (List Char) → List (List Char)
  | acc, [] => acc.reverse
  | acc, seg :: rest =>
      if seg = [] ∨ seg = ['.'] then cleanElements rooted acc rest
      else if seg = ['.', '.'] then
        match acc with
        | [] =>
            if rooted then cleanElements rooted [] rest
            else cleanElements rooted [seg] rest
        | top :: below =>
            if top = ['.', '.'] then cleanElements rooted (seg :: acc) rest
            else cleanElements rooted below rest
      else cleanElements rooted (seg :: acc) rest

/-- Go `path.Clean`: the shortest path name equivalent to `p`. -/
def pathClean (p : String) : String :=
  if p.data = [] then "."
  else if p.data.head? = some '/' then
    ⟨'/' :: joinSlash (cleanElements true [] (splitSlash p.data))⟩
  else
    if joinSlash (cleanElements false [] (splitSlash p.data)) = [] then "."
    else ⟨joinSlash (cleanElements false [] (splitSlash p.data))⟩

/-- What the innermost handler is asked to do. `file dir name` is the file
server opening `name` in the file system `http.Dir(dir)`, that is the file at
the rooted, slash-separated `name` below `dir`; what follows depends on the
file system. -/
inductive Served where
  | api (m : ApiMethod)
  | file (dir : String) (name : String)
  | redirect (location : String)
  | webSocket
  | notFound
  deriving DecidableEq, Repr

/-- Embedding of `http.FileServer(http.Dir(dir))` on a request with `URL.Path`
equal to `path`: the path is made rooted, a path ending in `/index.html` is
redirected to `./`, and otherwise `path.Clean` of it is opened in the file
system. -/
def FileServer (dir : String) (path : String) : Served :=
  if hasSuffix (if hasPrefix path "/" then path else "/" ++ path) "/index.html" then
    .redirect "./"
  else .file dir (pathClean (if hasPrefix path "/" then path else "/" ++ path))

/-- Behaviour of a registered handler on a request; `rawPath` is `URL.RawPath`,
which routing does not read. `http.StripPrefix` passes the request on with the
prefix removed from `URL.Path` and `URL.RawPath` when `URL.Path` starts with it
and `URL.RawPath` is empty or starts with it too, and answers not-found
otherwise. Go compares byte lengths; a string and what is left of it after
trimming compare the same way in characters. -/
def Handler.serve : Handler → Request → String → Served
  | .wrapped m, _, _ => .api m
  | .webSocket, _, _ => .webSocket
  | .stripPrefixFileServer strip dir, req, rawPath =>
      if strip = "" then FileServer dir req.path
      else if (trimPrefix req.path strip).data.length < req.path.data.length ∧
          (rawPath = "" ∨ (trimPrefix rawPath strip).data.length < rawPath.data.length) then
        FileServer dir (trimPrefix req.path strip)
      else .notFound

/-! ## The solver matching pass (specification §4.2)

The package `pkg/solver` that `runSolver` starts is not among the source files;
the matching pass is written down here from the specification. -/

/-- Modelled from the spec: the role attribute of an Offer (§3), declared outside
the source files. -/
inductive OfferRole where
  | requester
  | provider
  deriving DecidableEq, Repr

/-- Modelled from the spec: the status attribute of an Offer (§3), declared
outside the source files. -/
inductive OfferStatus where
  | opened
  | matched
  | expired
  | cancelled
  deriving DecidableEq, Repr

/-- Modelled from the spec: the Offer record of §3, whose declaration is in a
package outside the source files. `spec` is the resource/job specification,
whose content the core does not interpret; `created` is the offer-creation
time the tie-break of §4.2 refers to. -/
structure Offer (σ : Type) where
  id : String
  party : String
  role : OfferRole
  spec : σ
  price : Nat
  created : Nat
  expiry : Nat
  status : OfferStatus
  deriving DecidableEq, Repr

/-- Is the offer open. -/
def Offer.isOpen {σ : Type} (o : Offer σ) : Bool :=
  decide (o.status = OfferStatus.opened)

/-- Lexicographic comparison of two sequences of character codes. -/
def lexLE : List Nat → List Nat → Bool
  | [], _ => true
  | _ :: _, [] => false
  | a :: as, b :: bs => decide (a < b) || (decide (a = b) && lexLE as bs)

/-- Modelled from the spec: the lexicographic order on offer IDs of §4.2 (absent
solver package), character by character. -/
def idLE (a b : String) : Bool :=
  lexLE (a.data.map Char.toNat) (b.data.map Char.toNat)

/-- Modelled from the spec: the preference between provider offers of §4.2,
which is part of the absent solver package: lower price first, then earlier
creation time, then the lexicographically smaller offer ID. -/
def providerLE {σ : Type} (p q : Offer σ) : Prop :=
  p.price < q.price ∨
    (p.price = q.price ∧
      (p.created < q.created ∨ (p.created = q.created ∧ idLE p.id q.id = true)))

instance {σ : Type} (p q : Offer σ) : Decidable (providerLE p q) := by
  unfold providerLE
  infer_instance

/-- Modelled from the spec: selection of the preferred provider offer among the
candidates (absent solver package); `none` when there is no candidate. -/
def pickBest {σ : Type} : List (Offer σ) → Option (Offer σ)
  | [] => none
  | c :: cs =>
      match pickBest cs with
      | none => some c
      | some b => if providerLE c b then some c else some b

/-- Modelled from the spec: insertion of a requester offer into a list ordered
by expiry (absent solver package); an offer goes after those with the same
expiry. -/
def insertByExpiry {σ : Type} (r : Offer σ) : List (Offer σ) → List (Offer σ)
  | [] => [r]
  | x :: xs => if r.expiry < x.expiry then r :: x :: xs else x :: insertByExpiry r xs

/-- Modelled from the spec: the requester offers in ascending order of expiry
(absent solver package). -/
def sortByExpiry {σ : Type} : List (Offer σ) → List (Offer σ)
  | [] => []
  | r :: rs => insertByExpiry r (sortByExpiry rs)

/-- Modelled from the spec: the loop of the matching pass of §4.2 (absent solver
package). Requester offers are taken in the order given; each takes the
preferred provider offer among those of the pool that satisfy its requirement,
and the selected offer leaves the pool for the rest of the pass. -/
def matchLoop {σ : Type} (satisfies : σ → σ → Bool) :
    List (Offer σ) → List (Offer σ) → List (Offer σ × Offer σ)
  | [], _ => []
  | r :: rs, pool =>
      match pickBest (pool.filter fun p => satisfies p.spec r.spec) with
      | none => matchLoop satisfies rs pool
      | some p => (r, p) :: matchLoop satisfies rs (pool.filter fun q => decide (q.id ≠ p.id))

/-- Modelled from the spec: `match(openRequesterOffers, openProviderOffers)` of
§4.2 (absent solver package): one matching pass, returning the pairings
(requester offer, provider offer) in the order they are made.
`satisfies provided required` says whether a provider's resource specification
satisfies a requester's requirement. -/
def matchPass {σ : Type} (satisfies : σ → σ → Bool)
    (openRequesterOffers openProviderOffers : List (Offer σ)) : List (Offer σ × Offer σ) :=
  matchLoop satisfies (sortByExpiry (openRequesterOffers.filter Offer.isOpen))
    (openProviderOffers.filter Offer.isOpen)

/-- Provider offer IDs used by a list of pairings. -/
def providerIDs {σ : Type} (ps : List (Offer σ × Offer σ)) : List String :=
  ps.map fun pr => pr.2.id

/-- Scenario A: requester offer R1, deadline T+10 (with T = 100). -/
def scenarioA_R1 : Offer Nat :=
  { id := "R1", party := "requester-1", role := .requester, spec := 1, price := 10,
    created := 100, expiry := 110, status := .opened }

/-- Scenario A: provider offer P1, price 5. -/
def scenarioA_P1 : Offer Nat :=
  { id := "P1", party := "provider-1", role := .provider, spec := 1, price := 5,
    created := 100, expiry := 200, status := .opened }

/-- Scenario A: provider offer P2, price 3. -/
def scenarioA_P2 : Offer Nat :=
  { id := "P2", party := "provider-2", role := .provider, spec := 1, price := 3,
    created := 101, expiry := 200, status := .opened }

/-- A provider offer with the price and creation time of P2 and the ID "P0". -/
def scenarioA_P0 : Offer Nat :=
  { id := "P0", party := "provider-0", role := .provider, spec := 1, price := 3,
    created := 101, expiry := 200, status := .opened }

/-- A provider offer with the price of P2, created earlier, with the ID "P9". -/
def scenarioA_P9 : Offer Nat :=
  { id := "P9", party := "provider-9", role := .provider, spec := 1, price := 3,
    created := 99, expiry := 200, status := .opened }

/-- A requester offer expiring before R1. -/
def scenarioA_R0 : Offer Nat :=
  { id := "R0", party := "requester-0", role := .requester, spec := 1, price := 10,
    created := 100, expiry := 105, status := .opened }

/-- Scenario A: a provider satisfies a requirement when it offers at least as much. -/
def scenarioA_satisfies (provided required : Nat) : Bool :=
  decide (required ≤ provided)

/-! ## The deal state machine (specification §4.1)

The deal record and its transitions live in packages that are not among the
source files; they are written down here from the specification. -/

/-- Modelled from the spec: the states of a deal (§4.1), declared outside the
source files. -/
inductive DealState where
  | Proposed
  | Agreed
  | Running
  | ResultSubmitted
  | Accepted
  | Disputed
  | Resolved
  | Settled
  | Cancelled
  deriving DecidableEq, Repr

/-- Modelled from the spec: the triggers of the transition table of §4.1, whose
implementing package is absent. -/
inductive Trigger where
  /-- The ledger confirms the agreement transaction (`DealAgreed`) -/
  | DealAgreed
  /-- The resource provider agent begins executor submission -/
  | ExecutorSubmission
  /-- The ledger confirms the result transaction (`ResultSubmitted`) -/
  | ResultSubmitted
  /-- The challenge window elapses with no dispute -/
  | ChallengeWindowElapsed
  /-- A `DisputeRaised` event within the challenge window -/
  | DisputeRaised
  /-- The ledger confirms the resolution transaction (`DisputeResolved`) -/
  | DisputeResolved
  /-- Escrow release is confirmed -/
  | EscrowReleased
  /-- Expiry of either offer or an explicit cancellation (`DealCancelled`) -/
  | DealCancelled
  deriving DecidableEq, Repr

/-- Modelled from the spec: an event delivered to a deal (§4.1, absent package):
the deal it refers to, its trigger, and whether the guard of the transition it
asks for holds. -/
structure DealEvent where
  dealID : String
  trigger : Trigger
  guardHolds : Bool
  deriving DecidableEq, Repr

/-- Modelled from the spec: the Deal record of §3 (declared outside the source
files), with the attributes the state machine reads. -/
structure Deal where
  id : String
  requesterOfferID : String
  providerOfferID : String
  state : DealState
  deriving DecidableEq, Repr

/-- Modelled from the spec: the transition table of §4.1 (the implementing
package is absent): the state a trigger leads to from a state, `none` when the
table has no such row. -/
def transition : DealState → Trigger → Option DealState
  | .Proposed, .DealAgreed => some .Agreed
  | .Agreed, .ExecutorSubmission => some .Running
  | .Running, .ResultSubmitted => some .ResultSubmitted
  | .ResultSubmitted, .ChallengeWindowElapsed => some .Accepted
  | .ResultSubmitted, .DisputeRaised => some .Disputed
  | .Disputed, .DisputeResolved => some .Resolved
  | .Accepted, .EscrowReleased => some .Settled
  | .Resolved, .EscrowReleased => some .Settled
  | .Proposed, .DealCancelled => some .Cancelled
  | .Agreed, .DealCancelled => some .Cancelled
  | _, _ => none

/-- Modelled from the spec: application of one event to a deal (§4.1, absent
package). An event for another deal ID, one whose guard fails, or one with no
row in the table leaves the deal unchanged. -/
def applyEvent (d : Deal) (e : DealEvent) : Deal :=
  if e.dealID = d.id ∧ e.guardHolds = true then
    match transition d.state e.trigger with
    | some s => { d with state := s }
    | none => d
  else d

/-- The states a deal is observed in: its state before the first event and
after each event. -/
def observedStates (d : Deal) : List DealEvent → List DealState
  | [] => [d.state]
  | e :: es => d.state :: observedStates (applyEvent d e) es

/-- The changes of state in a sequence of observed states: the pairs of
consecutive states that differ. -/
def stateChanges : List DealState → List (DealState × DealState)
  | [] => []
  | [_] => []
  | s :: t :: rest =>
      if s = t then stateChanges (t :: rest) else (s, t) :: stateChanges (t :: rest)

/-- The transitions applied while the events are processed: the changes of state
in the sequence of observed states. -/
def appliedTransitions (d : Deal) (es : List DealEvent) : List (DealState × DealState) :=
  stateChanges (observedStates d es)

/-- Modelled from the spec: the edges of the state machine as the first line of
§4.1 draws it (the implementing package is absent):
`Proposed → Agreed → Running → ResultSubmitted → {Accepted | Disputed}`,
`Disputed → Resolved`, `{Accepted | Resolved} → Settled`, and `Cancelled` from
`Proposed` or `Agreed` only. -/
def legalEdge : DealState → DealState → Bool
  | .Proposed, .Agreed => true
  | .Agreed, .Running => true
  | .Running, .ResultSubmitted => true
  | .ResultSubmitted, .Accepted => true
  | .ResultSubmitted, .Disputed => true
  | .Disputed, .Resolved => true
  | .Accepted, .Settled => true
  | .Resolved, .Settled => true
  | .Proposed, .Cancelled => true
  | .Agreed, .Cancelled => true
  | _, _ => false

/-- Terminal states. -/
def DealState.terminal : DealState → Bool
  | .Settled => true
  | .Cancelled => true
  | _ => false

/-- Position of a state along the lifecycle; every edge goes upwards. -/
def DealState.rank : DealState → Nat
  | .Proposed => 0
  | .Agreed => 1
  | .Running => 2
  | .ResultSubmitted => 3
  | .Accepted => 4
  | .Disputed => 4
  | .Resolved => 5
  | .Settled => 6
  | .Cancelled => 7

theorem waitLoop_blocked_append (pre rest : List SelectObs)
    (hpre : ∀ o ∈ pre, o.blocked) : waitLoop (pre ++ rest) = waitLoop rest := by
  induction pre with
  | nil => rfl
  | cons o pre ih =>
    have ho : o.blocked := hpre o (List.mem_cons_self _ _)
    have hstep : selectStep o = none := by
      obtain ⟨h1, h2⟩ := ho
      simp [selectStep, h1, h2]
    have ih' := ih (fun x hx => hpre x (List.mem_cons_of_mem _ hx))
    simp [waitLoop, hstep, ih']

theorem waitLoop_err (pre rest : List SelectObs) (o : SelectObs) (e : GoError)
    (hpre : ∀ x ∈ pre, x.blocked) (herr : o.errPending = some e) (hctx : o.ctxDone = false) :
    waitLoop (pre ++ o :: rest) = some { ret := e, trace := [Effect.Cleanup] } := by
  rw [waitLoop_blocked_append pre _ hpre]
  simp [waitLoop, selectStep, herr, hctx]

theorem waitLoop_done (pre rest : List SelectObs) (o : SelectObs)
    (hpre : ∀ x ∈ pre, x.blocked) (herr : o.errPending = none) (hctx : o.ctxDone = true) :
    waitLoop (pre ++ o :: rest) = some { ret := none, trace := [] } := by
  rw [waitLoop_blocked_append pre _ hpre]
  simp [waitLoop, selectStep, herr, hctx]

/-! ## cmd/gdcn: results -/

/-- C1: for each of runSolver, runMediator and runResourceProvider, once the
service has been started (every constructor succeeded and `Start` was called),
if the `select` finds an error `e` ready on the service's error channel while
the command context is not done, after any number of evaluations that found
nothing ready, the function returns, and returns exactly `e`; the calls it made
end with `Start` followed only by the two `Cleanup` calls. -/
theorem run_returns_service_error (pre rest : List SelectObs) (o : SelectObs) (e : GoError)
    (hpre : ∀ x ∈ pre, x.blocked) (herr : o.errPending = some e) (hctx : o.ctxDone = false) :
    (∀ env : SolverEnv, env.started →
      runSolver env (pre ++ o :: rest) = some
        { ret := e,
          trace := [Effect.NewCommandContext, Effect.NewContractSDK, Effect.NewSolverStoreMemory,
            Effect.NewSolver, Effect.Start, Effect.Cleanup, Effect.Cleanup] }) ∧
    (∀ env : MediatorEnv, env.started →
      runMediator env (pre ++ o :: rest) = some
        { ret := e,
          trace := [Effect.NewCommandContext, Effect.NewContractSDK, Effect.NewBacalhauExecutor,
            Effect.NewMediator, Effect.LogStarting, Effect.Start, Effect.Cleanup,
            Effect.Cleanup] }) ∧
    (∀ env : ResourceProviderEnv, env.started →
      runResourceProvider env (pre ++ o :: rest) = some
        { ret := e,
          trace := [Effect.NewCommandContext, Effect.NewContractSDK, Effect.NewBacalhauExecutor,
            Effect.NewResourceProvider, Effect.Start, Effect.Cleanup, Effect.Cleanup] }) := by
  have hw := waitLoop_err pre rest o e hpre herr hctx
  refine ⟨?_, ?_, ?_⟩
  · rintro env ⟨h1, h2, h3⟩
    simp [runSolver, h1, h2, h3, hw, finish]
  · rintro env ⟨h1, h2, h3⟩
    simp [runMediator, h1, h2, h3, hw, finish]
  · rintro env ⟨h1, h2, h3⟩
    simp [runResourceProvider, h1, h2, h3, hw, finish]

/-- Witness for C1: the solver blocks once, then its error channel delivers
"ledger unreachable" while the context is not done. -/
theorem run_returns_service_error_witness :
    runSolver ⟨none, none, none⟩
      ([⟨none, false, false⟩] ++ ⟨some (some "ledger unreachable"), false, false⟩ :: []) = some
        { ret := some "ledger unreachable",
          trace := [Effect.NewCommandContext, Effect.NewContractSDK, Effect.NewSolverStoreMemory,
            Effect.NewSolver, Effect.Start, Effect.Cleanup, Effect.Cleanup] } :=
  (run_returns_service_error [⟨none, false, false⟩] []
    ⟨some (some "ledger unreachable"), false, false⟩ (some "ledger unreachable")
    (by intro x hx; simp at hx; subst hx; exact ⟨rfl, rfl⟩) rfl rfl).1
    ⟨none, none, none⟩ ⟨rfl, rfl, rfl⟩

/-- C2: for each of runSolver, runMediator and runResourceProvider, once the
service has been started, if the `select` finds the command context done with no
error pending on the service's error channel, after any number of evaluations
that found nothing ready, the function returns nil; over the whole run `Start`
was called exactly once, and the only call after it is the deferred `Cleanup`. -/
theorem run_returns_nil_on_shutdown (pre rest : List SelectObs) (o : SelectObs)
    (hpre : ∀ x ∈ pre, x.blocked) (herr : o.errPending = none) (hctx : o.ctxDone = true) :
    (∀ env : SolverEnv, env.started →
      ∃ r, runSolver env (pre ++ o :: rest) = some r ∧ r.ret = none ∧
        r.trace.count Effect.Start = 1 ∧
        r.trace = [Effect.NewCommandContext, Effect.NewContractSDK,
          Effect.NewSolverStoreMemory, Effect.NewSolver, Effect.Start, Effect.Cleanup]) ∧
    (∀ env : MediatorEnv, env.started →
      ∃ r, runMediator env (pre ++ o :: rest) = some r ∧ r.ret = none ∧
        r.trace.count Effect.Start = 1 ∧
        r.trace = [Effect.NewCommandContext, Effect.NewContractSDK,
          Effect.NewBacalhauExecutor, Effect.NewMediator, Effect.LogStarting, Effect.Start,
          Effect.Cleanup]) ∧
    (∀ env : ResourceProviderEnv, env.started →
      ∃ r, runResourceProvider env (pre ++ o :: rest) = some r ∧ r.ret = none ∧
        r.trace.count Effect.Start = 1 ∧
        r.trace = [Effect.NewCommandContext, Effect.NewContractSDK,
          Effect.NewBacalhauExecutor, Effect.NewResourceProvider, Effect.Start,
          Effect.Cleanup]) := by
  have hw := waitLoop_done pre rest o hpre herr hctx
  refine ⟨?_, ?_, ?_⟩
  · rintro env ⟨h1, h2, h3⟩
    refine ⟨⟨none, [Effect.NewCommandContext, Effect.NewContractSDK, Effect.NewSolverStoreMemory, Effect.NewSolver, Effect.Start, Effect.Cleanup]⟩, ?_, rfl, ?_, rfl⟩
    · simp [runSolver, h1, h2, h3, hw, finish]
    · decide
  · rintro env ⟨h1, h2, h3⟩
    refine ⟨⟨none, [Effect.NewCommandContext, Effect.NewContractSDK, Effect.NewBacalhauExecutor, Effect.NewMediator, Effect.LogStarting, Effect.Start, Effect.Cleanup]⟩, ?_, rfl, ?_, rfl⟩
    · simp [runMediator, h1, h2, h3, hw, finish]
    · decide
  · rintro env ⟨h1, h2, h3⟩
    refine ⟨⟨none, [Effect.NewCommandContext, Effect.NewContractSDK, Effect.NewBacalhauExecutor, Effect.NewResourceProvider, Effect.Start, Effect.Cleanup]⟩, ?_, rfl, ?_, rfl⟩
    · simp [runResourceProvider, h1, h2, h3, hw, finish]
    · decide

/-- Witness for C2: the mediator blocks twice, then finds the context done with
nothing on its error channel. -/
theorem run_returns_nil_on_shutdown_witness :
    ∃ r, runMediator ⟨none, none, none⟩
        ([⟨none, false, false⟩, ⟨none, false, true⟩] ++ ⟨none, true, false⟩ :: []) = some r ∧
      r.ret = none ∧ r.trace.count Effect.Start = 1 ∧
      r.trace = [Effect.NewCommandContext, Effect.NewContractSDK,
        Effect.NewBacalhauExecutor, Effect.NewMediator, Effect.LogStarting, Effect.Start,
        Effect.Cleanup] :=
  (run_returns_nil_on_shutdown [⟨none, false, false⟩, ⟨none, false, true⟩] []
    ⟨none, true, false⟩
    (by intro x hx; simp at hx; rcases hx with hx | hx <;> subst hx <;> exact ⟨rfl, rfl⟩)
    rfl rfl).2.1 ⟨none, none, none⟩ ⟨rfl, rfl, rfl⟩

/-! ## pkg/saas/server: NewServer results -/

/-- C8: for every ServerOptions, store and controller, NewServer returns a
non-nil error exactly when URL is empty, Host is empty, Port is 0, KeyCloakURL is
empty or KeyCloakToken is empty, and the server is then nil; otherwise the error
is nil and the server holds exactly the options, store and controller passed in.
LocalFilestorePath plays no part, and a negative Port is accepted. -/
theorem NewServer_result {S C : Type} (options : ServerOptions) (store : S) (controller : C) :
    (((NewServer options store controller).2 ≠ none) ↔
      (options.URL = "" ∨ options.Host = "" ∨ options.Port = 0 ∨
        options.KeyCloakURL = "" ∨ options.KeyCloakToken = "")) ∧
    (((NewServer options store controller).2 ≠ none) →
      (NewServer options store controller).1 = none) ∧
    (((NewServer options store controller).2 = none) →
      NewServer options store controller =
        (some { Options := options, Store := store, Controller := controller }, none)) ∧
    (NewServer
        { URL := "http://localhost", Host := "0.0.0.0", Port := -8080,
          KeyCloakURL := "http://keycloak", KeyCloakToken := "token",
          LocalFilestorePath := "" } store controller =
      (some
        { Options :=
            { URL := "http://localhost", Host := "0.0.0.0", Port := -8080,
              KeyCloakURL := "http://keycloak", KeyCloakToken := "token",
              LocalFilestorePath := "" },
          Store := store, Controller := controller }, none)) := by
  refine ⟨?_, ?_, ?_, ?_⟩
  · unfold NewServer
    by_cases h1 : options.URL = "" <;> by_cases h2 : options.Host = "" <;>
      by_cases h3 : options.Port = 0 <;> by_cases h4 : options.KeyCloakURL = "" <;>
      by_cases h5 : options.KeyCloakToken = "" <;> simp [h1, h2, h3, h4, h5]
  · unfold NewServer
    by_cases h1 : options.URL = "" <;> by_cases h2 : options.Host = "" <;>
      by_cases h3 : options.Port = 0 <;> by_cases h4 : options.KeyCloakURL = "" <;>
      by_cases h5 : options.KeyCloakToken = "" <;> simp [h1, h2, h3, h4, h5]
  · unfold NewServer
    by_cases h1 : options.URL = "" <;> by_cases h2 : options.Host = "" <;>
      by_cases h3 : options.Port = 0 <;> by_cases h4 : options.KeyCloakURL = "" <;>
      by_cases h5 : options.KeyCloakToken = "" <;> simp [h1, h2, h3, h4, h5]
  · simp [NewServer]


/-! ## routing lemmas -/

theorem matchRoutes_serve (rid : RouterId) (req : Request) (rs : List Route) (mismatch : Bool)
    (chain : List Middleware) (h : Handler)
    (hm : matchRoutes rid req rs mismatch = Dispatch.serve chain h) :
    chain = rid.middlewares ∧ ∃ r ∈ rs, r.handler = h := by
  induction rs generalizing mismatch with
  | nil =>
    cases mismatch <;> simp [matchRoutes] at hm
  | cons r rs ih =>
    simp only [matchRoutes] at hm
    split at hm
    · injection hm with h1 h2
      exact ⟨h1.symm, r, List.mem_cons_self _ _, h2⟩
    · obtain ⟨hc, x, hx, hxh⟩ := ih _ hm
      exact ⟨hc, x, List.mem_cons_of_mem _ hx, hxh⟩
    · obtain ⟨hc, x, hx, hxh⟩ := ih _ hm
      exact ⟨hc, x, List.mem_cons_of_mem _ hx, hxh⟩

theorem matchSubrouter_serve (req : Request) (es : List SubrouterEntry) (mismatch : Bool)
    (chain : List Middleware) (h : Handler)
    (hm : matchSubrouter req es mismatch = Dispatch.serve chain h) :
    (chain = [Middleware.verifyToken] ∧ ∃ r ∈ authRoutes, r.handler = h) ∨
    (chain = [] ∧ ∃ r, SubrouterEntry.route r ∈ es ∧ r.handler = h) := by
  induction es generalizing mismatch with
  | nil =>
    cases mismatch <;> simp [matchSubrouter] at hm
  | cons e es ih =>
    have lift : ∀ m, matchSubrouter req es m = Dispatch.serve chain h →
        (chain = [Middleware.verifyToken] ∧ ∃ r ∈ authRoutes, r.handler = h) ∨
        (chain = [] ∧ ∃ r, SubrouterEntry.route r ∈ (e :: es) ∧ r.handler = h) := by
      intro m hm'
      rcases ih m hm' with h1 | ⟨hc, r, hr, hrh⟩
      · exact Or.inl h1
      · exact Or.inr ⟨hc, r, List.mem_cons_of_mem _ hr, hrh⟩
    cases e with
    | authSubrouter =>
      simp only [matchSubrouter] at hm
      split at hm
      · rename_i c h' hauth
        injection hm with h1 h2
        obtain ⟨hc, r, hr, hrh⟩ := matchRoutes_serve _ _ _ _ _ _ hauth
        left
        refine ⟨?_, r, hr, hrh.trans h2⟩
        rw [← h1, hc]
        rfl
      · exact lift _ hm
      · exact lift _ hm
    | route r =>
      simp only [matchSubrouter] at hm
      split at hm
      · injection hm with h1 h2
        right
        exact ⟨by rw [← h1]; rfl, r, List.mem_cons_self _ _, h2⟩
      · exact lift _ hm
      · exact lift _ hm

theorem dispatch_serve (options : ServerOptions) (req : Request) (chain : List Middleware)
    (h : Handler) (hd : dispatch options req = Dispatch.serve chain h) :
    (chain = [Middleware.corsMiddleware, Middleware.verifyToken] ∧
        ∃ r ∈ authRoutes, r.handler = h) ∨
    (chain = [Middleware.corsMiddleware] ∧
        ∃ r, SubrouterEntry.route r ∈ subrouterEntries options ∧ r.handler = h) := by
  unfold dispatch at hd
  split at hd
  · split at hd
    · rename_i c h' hsub
      injection hd with h1 h2
      rcases matchSubrouter_serve _ _ _ _ _ hsub with ⟨hc, r, hr, hrh⟩ | ⟨hc, r, hr, hrh⟩
      · left
        refine ⟨?_, r, hr, hrh.trans h2⟩
        rw [← h1, hc]
        rfl
      · right
        refine ⟨?_, r, hr, hrh.trans h2⟩
        rw [← h1, hc]
        rfl
    · rename_i other hne
      exact absurd hd (hne chain h)
  · exact Dispatch.noConfusion hd

theorem subrouterEntries_route (options : ServerOptions) (r : Route)
    (hr : SubrouterEntry.route r ∈ subrouterEntries options) :
    r.handler = Handler.wrapped ApiMethod.getModules ∨
    (options.LocalFilestorePath ≠ "" ∧ r = fileViewerRoute options) ∨
    r.handler = Handler.webSocket := by
  unfold subrouterEntries at hr
  by_cases hp : options.LocalFilestorePath = ""
  · simp [hp, StartWebSocketServer] at hr
    rcases hr with hr | hr <;> subst hr <;> simp [modulesRoute]
  · simp [hp, StartWebSocketServer] at hr
    rcases hr with hr | hr | hr
    · subst hr; simp [modulesRoute]
    · exact Or.inr (Or.inl ⟨hp, hr⟩)
    · subst hr; simp

theorem routeTable_mem (options : ServerOptions) (rid : RouterId) (r : Route) :
    (rid, r) ∈ routeTable options ↔
      (rid = RouterId.authRouter ∧ r ∈ authRoutes) ∨
      (rid = RouterId.subrouter ∧ SubrouterEntry.route r ∈ subrouterEntries options) := by
  unfold routeTable
  rw [List.mem_flatMap]
  constructor
  · rintro ⟨e, he, hmem⟩
    cases e with
    | authSubrouter =>
      simp only [List.mem_map, Prod.mk.injEq] at hmem
      obtain ⟨x, hx, h1, h2⟩ := hmem
      exact Or.inl ⟨h1.symm, h2 ▸ hx⟩
    | route x =>
      simp only [List.mem_singleton, Prod.mk.injEq] at hmem
      obtain ⟨h1, h2⟩ := hmem
      exact Or.inr ⟨h1, h2 ▸ he⟩
  · rintro (⟨h1, h2⟩ | ⟨h1, h2⟩)
    · refine ⟨SubrouterEntry.authSubrouter, ?_, ?_⟩
      · simp [subrouterEntries]
      · simp only [List.mem_map, Prod.mk.injEq]
        exact ⟨r, h2, h1.symm, rfl⟩
    · exact ⟨SubrouterEntry.route r, h2, by simp [h1]⟩

/-- C7: in the route table built by ListenAndServe every handler route other
than GET /modules, the file viewer and the websocket endpoint is registered on
authRouter, whose middleware is verifyToken; whenever routing serves a request,
the handler is either one of authRouter behind CORS and then verifyToken, or it
is getModules, the file viewer or the websocket handler behind CORS only; a
wrapped API method other than getModules is therefore never served without
verifyToken; POST /api/v1/jobs/async and POST /api/v1/jobs/sync are served behind
verifyToken and GET /api/v1/modules without it. -/
theorem authenticated_routes {S C : Type} (apiServer : LilysaasAPIServer S C) :
    (∀ rid r, (rid, r) ∈ apiServer.ListenAndServe →
      r.handler ≠ Handler.wrapped ApiMethod.getModules →
      r ≠ fileViewerRoute apiServer.Options →
      r.handler ≠ Handler.webSocket →
        rid = RouterId.authRouter ∧
        RouterId.authRouter.middlewares = [Middleware.verifyToken]) ∧
    (∀ req chain h, dispatch apiServer.Options req = Dispatch.serve chain h →
      (chain = [Middleware.corsMiddleware, Middleware.verifyToken] ∧
          ∃ r ∈ authRoutes, r.handler = h) ∨
      (chain = [Middleware.corsMiddleware] ∧
          (h = Handler.wrapped ApiMethod.getModules ∨
           (apiServer.Options.LocalFilestorePath ≠ "" ∧ h = (fileViewerRoute apiServer.Options).handler) ∨
           h = Handler.webSocket))) ∧
    (∀ req chain m, dispatch apiServer.Options req = Dispatch.serve chain (Handler.wrapped m) →
      m ≠ ApiMethod.getModules →
        chain = [Middleware.corsMiddleware, Middleware.verifyToken]) ∧
    (∀ req chain m, dispatch apiServer.Options req = Dispatch.serve chain (Handler.wrapped m) →
      Middleware.verifyToken ∉ chain → m = ApiMethod.getModules) ∧
    dispatch apiServer.Options ⟨"POST", "/api/v1/jobs/async"⟩ =
      Dispatch.serve [Middleware.corsMiddleware, Middleware.verifyToken]
        (Handler.wrapped ApiMethod.createJobAsync) ∧
    dispatch apiServer.Options ⟨"POST", "/api/v1/jobs/sync"⟩ =
      Dispatch.serve [Middleware.corsMiddleware, Middleware.verifyToken]
        (Handler.wrapped ApiMethod.createJobSync) ∧
    dispatch apiServer.Options ⟨"GET", "/api/v1/modules"⟩ =
      Dispatch.serve [Middleware.corsMiddleware] (Handler.wrapped ApiMethod.getModules) := by
  obtain ⟨options, store, controller⟩ := apiServer
  dsimp only [LilysaasAPIServer.ListenAndServe]
  have hserve : ∀ req chain h, dispatch options req = Dispatch.serve chain h →
      (chain = [Middleware.corsMiddleware, Middleware.verifyToken] ∧
          ∃ r ∈ authRoutes, r.handler = h) ∨
      (chain = [Middleware.corsMiddleware] ∧
          (h = Handler.wrapped ApiMethod.getModules ∨
           (options.LocalFilestorePath ≠ "" ∧ h = (fileViewerRoute options).handler) ∨
           h = Handler.webSocket)) := by
    intro req chain h hd
    rcases dispatch_serve options req chain h hd with h1 | ⟨hc, r, hr, hrh⟩
    · exact Or.inl h1
    · right
      refine ⟨hc, ?_⟩
      rcases subrouterEntries_route options r hr with h1 | ⟨hp, h2⟩ | h3
      · exact Or.inl (hrh ▸ h1)
      · exact Or.inr (Or.inl ⟨hp, by rw [← hrh, h2]⟩)
      · exact Or.inr (Or.inr (hrh ▸ h3))
  have hthird : ∀ req chain m, dispatch options req = Dispatch.serve chain (Handler.wrapped m) →
      m ≠ ApiMethod.getModules →
        chain = [Middleware.corsMiddleware, Middleware.verifyToken] := by
    intro req chain m hd hm
    rcases hserve req chain _ hd with ⟨hc, _⟩ | ⟨_, h1 | ⟨_, h2⟩ | h3⟩
    · exact hc
    · injection h1 with h1
      exact absurd h1 hm
    · simp [fileViewerRoute] at h2
    · exact Handler.noConfusion h3
  refine ⟨?_, hserve, hthird, ?_, ?_, ?_, ?_⟩
  · intro rid r hmem hmod hview hws
    rcases (routeTable_mem options rid r).1 hmem with ⟨hrid, _⟩ | ⟨_, hr⟩
    · exact ⟨hrid, rfl⟩
    · rcases subrouterEntries_route options r hr with h1 | ⟨_, h2⟩ | h3
      · exact absurd h1 hmod
      · exact absurd h2 hview
      · exact absurd h3 hws
  · intro req chain m hd hv
    by_contra hm
    rw [hthird req chain m hd hm] at hv
    exact hv (by decide)
  · have h : matchRoutes RouterId.authRouter ⟨"POST", "/api/v1/jobs/async"⟩ authRoutes false =
        Dispatch.serve [Middleware.verifyToken] (Handler.wrapped ApiMethod.createJobAsync) := by
      decide
    have hroot : hasPrefix "/api/v1/jobs/async" RouterId.subrouter.pathTemplate = true := by
      decide
    simp [dispatch, hroot, subrouterEntries, matchSubrouter, h, RouterId.middlewares]
  · have h : matchRoutes RouterId.authRouter ⟨"POST", "/api/v1/jobs/sync"⟩ authRoutes false =
        Dispatch.serve [Middleware.verifyToken] (Handler.wrapped ApiMethod.createJobSync) := by
      decide
    have hroot : hasPrefix "/api/v1/jobs/sync" RouterId.subrouter.pathTemplate = true := by
      decide
    simp [dispatch, hroot, subrouterEntries, matchSubrouter, h, RouterId.middlewares]
  · have h : matchRoutes RouterId.authRouter ⟨"GET", "/api/v1/modules"⟩ authRoutes false =
        Dispatch.notFound := by
      decide
    have hroot : hasPrefix "/api/v1/modules" RouterId.subrouter.pathTemplate = true := by
      decide
    have hm : Route.matchRequest RouterId.subrouter modulesRoute ⟨"GET", "/api/v1/modules"⟩ =
        RouteOutcome.matched := by decide
    simp [dispatch, hroot, subrouterEntries, matchSubrouter, h, hm, RouterId.middlewares]
    rfl


/-! ## deal state machine lemmas -/

theorem applyEvent_state (d : Deal) (e : DealEvent) :
    (applyEvent d e).state = d.state ∨ legalEdge d.state (applyEvent d e).state = true := by
  unfold applyEvent
  split
  · cases hs : d.state <;> cases ht : e.trigger <;> simp [transition, legalEdge, hs]
  · exact Or.inl rfl

theorem legalEdge_rank (s t : DealState) (h : legalEdge s t = true) : s.rank < t.rank := by
  cases s <;> cases t <;> simp [legalEdge, DealState.rank] at h ⊢

theorem legalEdge_not_terminal (s t : DealState) (h : legalEdge s t = true) :
    s.terminal = false := by
  cases s <;> cases t <;> simp [legalEdge, DealState.terminal] at h ⊢

theorem observedStates_eq_cons (d : Deal) (es : List DealEvent) :
    ∃ rest, observedStates d es = d.state :: rest := by
  cases es with
  | nil => exact ⟨[], rfl⟩
  | cons e es => exact ⟨_, rfl⟩

theorem observedStates_chain (d : Deal) (es : List DealEvent) :
    List.Chain' (fun s t => s = t ∨ legalEdge s t = true) (observedStates d es) := by
  induction es generalizing d with
  | nil => simp [observedStates]
  | cons e es ih =>
    obtain ⟨rest, hrest⟩ := observedStates_eq_cons (applyEvent d e) es
    have hih := ih (applyEvent d e)
    rw [observedStates, hrest]
    rw [hrest] at hih
    refine List.Chain'.cons ?_ hih
    rcases applyEvent_state d e with h | h
    · exact Or.inl h.symm
    · exact Or.inr h

theorem stateChanges_of_chain (l : List DealState)
    (hc : List.Chain' (fun s t => s = t ∨ legalEdge s t = true) l) :
    (∀ tr ∈ stateChanges l, legalEdge tr.1 tr.2 = true) ∧
    (∀ tr ∈ stateChanges l, ∀ s ∈ l.head?, s.rank ≤ tr.1.rank) ∧
    List.Pairwise (fun a b => a.1.rank < b.1.rank) (stateChanges l) := by
  induction l with
  | nil => simp [stateChanges]
  | cons s l ih =>
    cases l with
    | nil => simp [stateChanges]
    | cons t rest =>
      rw [List.chain'_cons] at hc
      obtain ⟨hst, hrest⟩ := hc
      obtain ⟨ih1, ih2, ih3⟩ := ih hrest
      have ih2' : ∀ tr ∈ stateChanges (t :: rest), t.rank ≤ tr.1.rank :=
        fun tr htr => ih2 tr htr t (by simp)
      by_cases heq : s = t
      · subst heq
        simp only [stateChanges, if_true]
        refine ⟨ih1, ?_, ih3⟩
        intro tr htr x hx
        simp only [List.head?_cons, Option.mem_def, Option.some.injEq] at hx
        subst hx
        exact ih2' tr htr
      · have hedge : legalEdge s t = true := hst.resolve_left heq
        have hlt := legalEdge_rank s t hedge
        simp only [stateChanges, if_neg heq]
        refine ⟨?_, ?_, ?_⟩
        · intro tr htr
          rcases List.mem_cons.1 htr with h | h
          · subst h; exact hedge
          · exact ih1 tr h
        · intro tr htr x hx
          simp only [List.head?_cons, Option.mem_def, Option.some.injEq] at hx
          subst hx
          rcases List.mem_cons.1 htr with h | h
          · subst h; exact le_refl _
          · exact le_of_lt (lt_of_lt_of_le hlt (ih2' tr h))
        · refine List.Pairwise.cons ?_ ih3
          intro tr htr
          exact lt_of_lt_of_le hlt (ih2' tr htr)

theorem observedStates_terminal (d : Deal) (es : List DealEvent)
    (h : d.state.terminal = true) : ∀ s ∈ observedStates d es, s = d.state := by
  induction es generalizing d with
  | nil => simp [observedStates]
  | cons e es ih =>
    have hsame : (applyEvent d e).state = d.state := by
      rcases applyEvent_state d e with h1 | h1
      · exact h1
      · have := legalEdge_not_terminal _ _ h1
        rw [h] at this
        exact Bool.noConfusion this
    intro s hs
    rw [observedStates] at hs
    rcases List.mem_cons.1 hs with h1 | h1
    · exact h1
    · rw [← hsame]
      exact ih (applyEvent d e) (by rw [hsame]; exact h) s h1

/-! ## deal state machine results -/

/-- C5: for every Deal and every sequence of events applied to it, whether the
events are valid or not, each step of the sequence of observed states either
leaves the state unchanged or follows an edge of the deal state machine; every
transition applied is such an edge and none leaves Settled or Cancelled; no
transition is applied twice; and a deal in Settled or Cancelled stays there. -/
theorem deal_states_follow_machine (d : Deal) (es : List DealEvent) :
    List.Chain' (fun s t => s = t ∨ legalEdge s t = true) (observedStates d es) ∧
    (∀ tr ∈ appliedTransitions d es, legalEdge tr.1 tr.2 = true) ∧
    (∀ tr ∈ appliedTransitions d es, tr.1 ≠ DealState.Settled ∧ tr.1 ≠ DealState.Cancelled) ∧
    (appliedTransitions d es).Nodup ∧
    ((d.state = DealState.Settled ∨ d.state = DealState.Cancelled) →
      ∀ s ∈ observedStates d es, s = d.state) ∧
    (∀ e : DealEvent, (d.state = DealState.Settled ∨ d.state = DealState.Cancelled) →
      applyEvent d e = d) := by
  have hc := observedStates_chain d es
  obtain ⟨h1, _, h3⟩ := stateChanges_of_chain _ hc
  refine ⟨hc, h1, ?_, ?_, ?_, ?_⟩
  · intro tr htr
    have hnt := legalEdge_not_terminal _ _ (h1 tr htr)
    constructor <;> intro heq <;> rw [heq] at hnt <;> exact Bool.noConfusion hnt
  · unfold appliedTransitions
    refine List.Pairwise.imp ?_ h3
    intro a b hab heq
    rw [heq] at hab
    exact lt_irrefl _ hab
  · intro hterm
    apply observedStates_terminal
    rcases hterm with h | h <;> rw [h] <;> rfl
  · intro e hterm
    unfold applyEvent
    split
    · rcases hterm with h | h <;> rw [h] <;> cases e.trigger <;> rfl
    · rfl

/-! ## matching pass lemmas -/

theorem lexLE_total (a b : List Nat) : lexLE a b = true ∨ lexLE b a = true := by
  induction a generalizing b with
  | nil => exact Or.inl (by simp [lexLE])
  | cons x xs ih =>
    cases b with
    | nil => exact Or.inr (by simp [lexLE])
    | cons y ys =>
      simp only [lexLE, Bool.or_eq_true, Bool.and_eq_true, decide_eq_true_eq]
      rcases Nat.lt_trichotomy x y with h | h | h
      · exact Or.inl (Or.inl h)
      · rcases ih ys with h1 | h1
        · exact Or.inl (Or.inr ⟨h, h1⟩)
        · exact Or.inr (Or.inr ⟨h.symm, h1⟩)
      · exact Or.inr (Or.inl h)

theorem lexLE_trans (a b c : List Nat) (hab : lexLE a b = true) (hbc : lexLE b c = true) :
    lexLE a c = true := by
  induction a generalizing b c with
  | nil => simp [lexLE]
  | cons x xs ih =>
    cases b with
    | nil => simp [lexLE] at hab
    | cons y ys =>
      cases c with
      | nil => simp [lexLE] at hbc
      | cons z zs =>
        simp only [lexLE, Bool.or_eq_true, Bool.and_eq_true, decide_eq_true_eq] at hab hbc ⊢
        rcases hab with h1 | ⟨h1, h1'⟩
        · rcases hbc with h2 | ⟨h2, _⟩
          · exact Or.inl (lt_trans h1 h2)
          · exact Or.inl (h2 ▸ h1)
        · rcases hbc with h2 | ⟨h2, h2'⟩
          · exact Or.inl (h1 ▸ h2)
          · exact Or.inr ⟨h1.trans h2, ih ys zs h1' h2'⟩

theorem providerLE_total {σ : Type} (p q : Offer σ) : providerLE p q ∨ providerLE q p := by
  unfold providerLE
  rcases Nat.lt_trichotomy p.price q.price with h | h | h
  · exact Or.inl (Or.inl h)
  · rcases Nat.lt_trichotomy p.created q.created with h1 | h1 | h1
    · exact Or.inl (Or.inr ⟨h, Or.inl h1⟩)
    · rcases lexLE_total (p.id.data.map Char.toNat) (q.id.data.map Char.toNat) with h2 | h2
      · exact Or.inl (Or.inr ⟨h, Or.inr ⟨h1, h2⟩⟩)
      · exact Or.inr (Or.inr ⟨h.symm, Or.inr ⟨h1.symm, h2⟩⟩)
    · exact Or.inr (Or.inr ⟨h.symm, Or.inl h1⟩)
  · exact Or.inr (Or.inl h)

theorem providerLE_trans {σ : Type} (p q r : Offer σ) (hpq : providerLE p q)
    (hqr : providerLE q r) : providerLE p r := by
  unfold providerLE at *
  rcases hpq with h1 | ⟨h1, h1'⟩
  · rcases hqr with h2 | ⟨h2, _⟩
    · exact Or.inl (lt_trans h1 h2)
    · exact Or.inl (h2 ▸ h1)
  · rcases hqr with h2 | ⟨h2, h2'⟩
    · exact Or.inl (h1 ▸ h2)
    · refine Or.inr ⟨h1.trans h2, ?_⟩
      rcases h1' with h3 | ⟨h3, h3'⟩
      · rcases h2' with h4 | ⟨h4, _⟩
        · exact Or.inl (lt_trans h3 h4)
        · exact Or.inl (h4 ▸ h3)
      · rcases h2' with h4 | ⟨h4, h4'⟩
        · exact Or.inl (h3 ▸ h4)
        · exact Or.inr ⟨h3.trans h4, lexLE_trans _ _ _ h3' h4'⟩

theorem providerLE_refl {σ : Type} (p : Offer σ) : providerLE p p :=
  (providerLE_total p p).elim id id

theorem pickBest_some {σ : Type} (l : List (Offer σ)) (p : Offer σ)
    (h : pickBest l = some p) : p ∈ l ∧ ∀ q ∈ l, providerLE p q := by
  induction l generalizing p with
  | nil => simp [pickBest] at h
  | cons c cs ih =>
    rw [pickBest] at h
    cases hb : pickBest cs with
    | none =>
      rw [hb] at h
      simp only [Option.some.injEq] at h
      subst h
      have hnil : cs = [] := by
        cases cs with
        | nil => rfl
        | cons x xs =>
          rw [pickBest] at hb
          cases hx : pickBest xs with
          | none => rw [hx] at hb; exact Option.noConfusion hb
          | some b => rw [hx] at hb; simp only at hb; split at hb <;> exact Option.noConfusion hb
      subst hnil
      refine ⟨List.mem_cons_self _ _, ?_⟩
      intro q hq
      simp only [List.mem_singleton] at hq
      subst hq
      exact providerLE_refl _
    | some b =>
      rw [hb] at h
      obtain ⟨hbmem, hbmin⟩ := ih b hb
      simp only at h
      split at h
      · rename_i hle
        simp only [Option.some.injEq] at h
        subst h
        refine ⟨List.mem_cons_self _ _, ?_⟩
        intro q hq
        rcases List.mem_cons.1 hq with h1 | h1
        · subst h1; exact providerLE_refl _
        · exact providerLE_trans _ _ _ hle (hbmin q h1)
      · rename_i hle
        simp only [Option.some.injEq] at h
        subst h
        refine ⟨List.mem_cons_of_mem _ hbmem, ?_⟩
        intro q hq
        rcases List.mem_cons.1 hq with h1 | h1
        · subst h1; exact (providerLE_total _ _).resolve_right hle |> fun h => h
        · exact hbmin q h1

theorem insertByExpiry_perm {σ : Type} (r : Offer σ) (l : List (Offer σ)) :
    (insertByExpiry r l).Perm (r :: l) := by
  induction l with
  | nil => exact List.Perm.refl _
  | cons x xs ih =>
    rw [insertByExpiry]
    split
    · exact List.Perm.refl _
    · exact (List.Perm.cons x ih).trans (List.Perm.swap r x xs)

theorem sortByExpiry_perm {σ : Type} (l : List (Offer σ)) : (sortByExpiry l).Perm l := by
  induction l with
  | nil => exact List.Perm.refl _
  | cons r rs ih =>
    rw [sortByExpiry]
    exact (insertByExpiry_perm r _).trans (List.Perm.cons r ih)

theorem insertByExpiry_sorted {σ : Type} (r : Offer σ) (l : List (Offer σ))
    (h : List.Pairwise (fun a b => a.expiry ≤ b.expiry) l) :
    List.Pairwise (fun a b => a.expiry ≤ b.expiry) (insertByExpiry r l) := by
  induction l with
  | nil => simp [insertByExpiry]
  | cons x xs ih =>
    rw [insertByExpiry]
    rw [List.pairwise_cons] at h
    obtain ⟨hx, hxs⟩ := h
    split
    · rename_i hlt
      refine List.Pairwise.cons ?_ (List.Pairwise.cons hx hxs)
      intro y hy
      rcases List.mem_cons.1 hy with h1 | h1
      · subst h1; exact le_of_lt hlt
      · exact le_trans (le_of_lt hlt) (hx y h1)
    · rename_i hnlt
      refine List.Pairwise.cons ?_ (ih hxs)
      intro y hy
      rcases List.mem_cons.1 ((insertByExpiry_perm r xs).subset hy) with h1 | h1
      · subst h1; exact Nat.le_of_not_lt hnlt
      · exact hx y h1

theorem sortByExpiry_sorted {σ : Type} (l : List (Offer σ)) :
    List.Pairwise (fun a b => a.expiry ≤ b.expiry) (sortByExpiry l) := by
  induction l with
  | nil => simp [sortByExpiry]
  | cons r rs ih =>
    rw [sortByExpiry]
    exact insertByExpiry_sorted r _ ih

theorem matchLoop_requesters_sublist {σ : Type} (satisfies : σ → σ → Bool)
    (rs pool : List (Offer σ)) :
    ((matchLoop satisfies rs pool).map Prod.fst).Sublist rs := by
  induction rs generalizing pool with
  | nil => simp [matchLoop]
  | cons r rs ih =>
    rw [matchLoop]
    split
    · exact List.Sublist.cons r (ih pool)
    · simp only [List.map_cons]
      exact List.Sublist.cons₂ r (ih _)

theorem matchLoop_provider_mem {σ : Type} (satisfies : σ → σ → Bool)
    (rs pool : List (Offer σ)) :
    ∀ pr ∈ matchLoop satisfies rs pool, pr.2 ∈ pool := by
  induction rs generalizing pool with
  | nil => simp [matchLoop]
  | cons r rs ih =>
    intro pr hpr
    rw [matchLoop] at hpr
    split at hpr
    · exact ih pool pr hpr
    · rename_i p hp
      rcases List.mem_cons.1 hpr with h | h
      · subst h
        exact (List.mem_filter.1 (pickBest_some _ _ hp).1).1
      · exact (List.mem_filter.1 (ih _ pr h)).1

theorem matchLoop_providerIDs_nodup {σ : Type} (satisfies : σ → σ → Bool)
    (rs pool : List (Offer σ)) : (providerIDs (matchLoop satisfies rs pool)).Nodup := by
  induction rs generalizing pool with
  | nil => simp [matchLoop, providerIDs]
  | cons r rs ih =>
    rw [matchLoop]
    split
    · exact ih pool
    · rename_i p hp
      simp only [providerIDs, List.map_cons, List.nodup_cons]
      refine ⟨?_, ih _⟩
      intro hmem
      obtain ⟨pr, hpr, hid⟩ := List.mem_map.1 hmem
      have := (List.mem_filter.1 (matchLoop_provider_mem satisfies rs _ pr hpr)).2
      simp only [decide_eq_true_eq] at this
      exact this hid

theorem matchLoop_selection {σ : Type} (satisfies : σ → σ → Bool)
    (rs pool : List (Offer σ)) (l₁ l₂ : List (Offer σ × Offer σ)) (r p : Offer σ)
    (h : matchLoop satisfies rs pool = l₁ ++ (r, p) :: l₂) :
    r ∈ rs ∧ p ∈ pool ∧ satisfies p.spec r.spec = true ∧ p.id ∉ providerIDs l₁ ∧
    ∀ q ∈ pool, satisfies q.spec r.spec = true → q.id ∉ providerIDs l₁ → providerLE p q := by
  induction rs generalizing pool l₁ with
  | nil =>
    rw [matchLoop] at h
    cases l₁ <;> simp at h
  | cons r0 rs ih =>
    rw [matchLoop] at h
    split at h
    · obtain ⟨h1, h2⟩ := ih pool l₁ h
      exact ⟨List.mem_cons_of_mem _ h1, h2⟩
    · rename_i p0 hp0
      obtain ⟨hp0mem, hp0min⟩ := pickBest_some _ _ hp0
      rw [List.mem_filter] at hp0mem
      cases l₁ with
      | nil =>
        simp only [List.nil_append, List.cons.injEq, Prod.mk.injEq] at h
        obtain ⟨⟨hr, hp⟩, _⟩ := h
        subst hr
        subst hp
        refine ⟨List.mem_cons_self _ _, hp0mem.1, hp0mem.2, by simp [providerIDs], ?_⟩
        intro q hq hsat _
        exact hp0min q (List.mem_filter.2 ⟨hq, hsat⟩)
      | cons x l₁' =>
        simp only [List.cons_append, List.cons.injEq] at h
        obtain ⟨hx, hrest⟩ := h
        subst hx
        obtain ⟨h1, h2, h3, h4, h5⟩ := ih _ l₁' hrest
        rw [List.mem_filter] at h2
        have hne : p.id ≠ p0.id := by simpa using h2.2
        refine ⟨List.mem_cons_of_mem _ h1, h2.1, h3, ?_, ?_⟩
        · simp only [providerIDs, List.map_cons, List.mem_cons, not_or]
          exact ⟨hne, h4⟩
        · intro q hq hsat hnot
          simp only [providerIDs, List.map_cons, List.mem_cons, not_or] at hnot
          refine h5 q (List.mem_filter.2 ⟨hq, ?_⟩) hsat hnot.2
          simpa using hnot.1

/-! ## matching pass results -/

/-- C3: in one matching pass of the solver the open requester offers are served
in ascending order of expiry, and every pairing made gives its requester offer an
open provider offer that satisfies its requirement, has not been selected earlier
in the pass, and is preferred to every other such offer: lowest price, ties
broken by earliest creation time and then by the lexicographically smallest
offer ID. In Scenario A (R1, P1 at price 5, P2 at price 3) the pass pairs R1 with
P2; at equal price the earlier-created offer wins, and at equal price and
creation time the smaller ID wins. -/
theorem matchPass_selects_preferred {σ : Type} (satisfies : σ → σ → Bool)
    (reqs provs : List (Offer σ)) :
    (sortByExpiry (reqs.filter Offer.isOpen)).Perm (reqs.filter Offer.isOpen) ∧
    List.Pairwise (fun a b => a.expiry ≤ b.expiry) (sortByExpiry (reqs.filter Offer.isOpen)) ∧
    ((matchPass satisfies reqs provs).map Prod.fst).Sublist
      (sortByExpiry (reqs.filter Offer.isOpen)) ∧
    List.Pairwise (fun a b => a.1.expiry ≤ b.1.expiry) (matchPass satisfies reqs provs) ∧
    (∀ l₁ r p l₂, matchPass satisfies reqs provs = l₁ ++ (r, p) :: l₂ →
      r ∈ reqs ∧ r.isOpen = true ∧ p ∈ provs ∧ p.isOpen = true ∧
      satisfies p.spec r.spec = true ∧ p.id ∉ providerIDs l₁ ∧
      ∀ q ∈ provs, q.isOpen = true → satisfies q.spec r.spec = true →
        q.id ∉ providerIDs l₁ → providerLE p q) ∧
    matchPass scenarioA_satisfies [scenarioA_R1] [scenarioA_P1, scenarioA_P2] =
      [(scenarioA_R1, scenarioA_P2)] ∧
    matchPass scenarioA_satisfies [scenarioA_R1] [scenarioA_P1, scenarioA_P2, scenarioA_P9] =
      [(scenarioA_R1, scenarioA_P9)] ∧
    matchPass scenarioA_satisfies [scenarioA_R1] [scenarioA_P1, scenarioA_P2, scenarioA_P0] =
      [(scenarioA_R1, scenarioA_P0)] ∧
    matchPass scenarioA_satisfies [scenarioA_R1, scenarioA_R0]
        [scenarioA_P0, scenarioA_P1, scenarioA_P2, scenarioA_P9] =
      [(scenarioA_R0, scenarioA_P9), (scenarioA_R1, scenarioA_P0)] := by
  have hsub := matchLoop_requesters_sublist satisfies
    (sortByExpiry (reqs.filter Offer.isOpen)) (provs.filter Offer.isOpen)
  have hsorted := sortByExpiry_sorted (reqs.filter Offer.isOpen)
  refine ⟨sortByExpiry_perm _, hsorted, hsub, ?_, ?_, by decide, by decide, by decide,
    by decide⟩
  · have h := List.Pairwise.sublist hsub hsorted
    rw [List.pairwise_map] at h
    exact h
  · intro l₁ r p l₂ h
    obtain ⟨h1, h2, h3, h4, h5⟩ := matchLoop_selection satisfies _ _ l₁ l₂ r p h
    have hr := List.mem_filter.1 ((sortByExpiry_perm _).subset h1)
    have hp := List.mem_filter.1 h2
    refine ⟨hr.1, hr.2, hp.1, hp.2, h3, h4, ?_⟩
    intro q hq hopen hsat hnot
    exact h5 q (List.mem_filter.2 ⟨hq, hopen⟩) hsat hnot

/-- C4: for every pair of lists of open requester offers and open provider
offers, the pairings produced by a single matching pass contain no provider
offer more than once: the provider offer IDs of the pairings are pairwise
distinct, and so are the provider offers themselves. -/
theorem matchPass_no_double_booking {σ : Type} (satisfies : σ → σ → Bool)
    (reqs provs : List (Offer σ)) :
    (providerIDs (matchPass satisfies reqs provs)).Nodup ∧
    ((matchPass satisfies reqs provs).map Prod.snd).Nodup := by
  have h := matchLoop_providerIDs_nodup satisfies
    (sortByExpiry (reqs.filter Offer.isOpen)) (provs.filter Offer.isOpen)
  refine ⟨h, ?_⟩
  have h' : (((matchPass satisfies reqs provs).map Prod.snd).map fun o => o.id).Nodup := by
    rw [List.map_map]
    exact h
  exact List.Nodup.of_map _ h'

end GenericDCN
